import Mathlib

/-!
Verification of the ceneo_prices ETL pipeline (src/main.py) against its
natural-language specification.

The development is a shallow embedding of `main.py` into Lean:

* Python values (the JSON-shaped data handled by the script) become the
  inductive type `PyVal`; Python dicts become association lists
  (`PyDict`) together with operations mirroring dict lookup, dict
  assignment, dict comprehension, and the `{**a, **b}` merge.
* Fallible Python code (subscripting, iteration, attribute access on the
  wrong type) is embedded in `Except String`, the error string naming the
  Python exception that would be raised.
* The network call made by `scrape_batch` is abstracted by a `ReqOutcome`
  oracle value: either the `requests.get` call raised, or it returned a
  response with a status code and an (optionally JSON-decodable) body.
* The producer/consumer queue of the coordinator is modelled by the list
  of items the producer enqueues (`QItem`), and the writer thread by a
  function consuming such a list.
* The two `datetime.datetime.utcnow()` calls of `producer` are modelled
  by a clock oracle `Nat → PyDateTime` indexed by call order.
-/

/-- Python values appearing in the script: strings, ints, `None`, lists,
dicts.  The extra `ref` constructor is used only by the heap-based model
at the end of the file (where nested dicts are store references, so that
mutation of one dict is observable from another); the pure pipeline model
never constructs it. -/
inductive PyVal where
  | str (s : String)
  | int (n : Int)
  | none
  | list (elems : List PyVal)
  | dict (entries : List (String × PyVal))
  | ref (r : Nat)

/-- A Python dict, as an association list in insertion order. -/
abbrev PyDict := List (String × PyVal)

/-- Python `d.get(k)` / `d[k]` value lookup: first entry with the key
(dicts built by the functions below never hold duplicate keys). -/
def dget : PyDict → String → Option PyVal
  | [], _ => Option.none
  | p :: ps, k => if p.1 = k then some p.2 else dget ps k

/-- Python `d[k] = v`: update the existing entry in place, else append. -/
def dinsert (d : PyDict) (k : String) (v : PyVal) : PyDict :=
  if (dget d k).isSome then d.map (fun p => if p.1 = k then (p.1, v) else p)
  else d ++ [(k, v)]

/-- A Python dict display / dict comprehension built from a sequence of
(key, value) pairs: later pairs overwrite earlier ones. -/
def fromPairs (ps : List (String × PyVal)) : PyDict :=
  ps.foldl (fun d p => dinsert d p.1 p.2) []

/-- Python `{**a, **b}`: all keys of `a` (values from `b` where shared),
then the keys only in `b`. -/
def dmerge (a b : PyDict) : PyDict :=
  a.map (fun p => (p.1, (dget b p.1).getD p.2)) ++
    b.filter (fun p => (dget a p.1).isNone)

/-- Lookup in a string-to-string dict (the `columns_mapping` config). -/
def sget : List (String × String) → String → Option String
  | [], _ => Option.none
  | p :: ps, k => if p.1 = k then some p.2 else sget ps k

/-- Python `v == s` for a string literal `s`: true only when `v` is that
string (values of other types are never equal to a `str`). -/
def isStrEq (v : PyVal) (s : String) : Bool :=
  match v with
  | PyVal.str t => t = s
  | _ => false

/-- Python truthiness of a value (`if item.get(...)`): `None`, `""`, `0`
and empty containers are falsy.  (`ref` appears only in the heap model,
where truthiness is never taken.) -/
def pyTruthy : PyVal → Bool
  | PyVal.str s => !(s = "")
  | PyVal.int n => !(n = 0)
  | PyVal.none => false
  | PyVal.list l => !l.isEmpty
  | PyVal.dict d => !d.isEmpty
  | PyVal.ref _ => true

/-- Python `repr` of a value (used by `str` on containers). -/
def pyRepr : PyVal → String
  | PyVal.str s => "\x27" ++ s ++ "\x27"
  | PyVal.int n => toString n
  | PyVal.none => "None"
  | PyVal.ref r => "<ref " ++ toString r ++ ">"
  | PyVal.list es =>
      "[" ++ String.intercalate ", " (es.attach.map (fun e => pyRepr e.val)) ++ "]"
  | PyVal.dict ps =>
      "\x7b" ++
        String.intercalate ", "
          (ps.attach.map (fun p => "\x27" ++ p.val.fst ++ "\x27: " ++ pyRepr p.val.snd)) ++
      "\x7d"
  decreasing_by
    all_goals simp_wf
    · have h := List.sizeOf_lt_of_mem e.property
      omega
    · have h := List.sizeOf_lt_of_mem p.property
      have h2 : sizeOf p.val.snd < sizeOf p.val := by
        obtain ⟨a, b⟩ := p.val; simp
      omega

/-- Python `str(v)` as used in an f-string: strings verbatim, otherwise
the repr. -/
def pyStr : PyVal → String
  | PyVal.str s => s
  | v => pyRepr v

/-- Python subscripting `v[k]` with a string key: a `KeyError` when the
key is missing from a dict, a `TypeError` when `v` is not a dict. -/
def pySubscript (v : PyVal) (k : String) : Except String PyVal :=
  match v with
  | PyVal.dict d =>
      match dget d k with
      | some x => Except.ok x
      | Option.none => Except.error ("KeyError: " ++ k)
  | _ => Except.error "TypeError: value is not subscriptable"

/-- Python `k in v.keys()`: an `AttributeError` when `v` is not a dict. -/
def pyKeysContains (v : PyVal) (k : String) : Except String Bool :=
  match v with
  | PyVal.dict d => Except.ok (dget d k).isSome
  | _ => Except.error "AttributeError: value has no attribute keys"

/-- Iterating a value as a sequence of records.  Only a list iterates
usefully here; iterating a dict or string would hand strings to
`parse_offer`, which then raises on `.copy()` / `.get(...)`, so the
embedding raises at the iteration point. -/
def pyIterList (v : PyVal) : Except String (List PyVal) :=
  match v with
  | PyVal.list l => Except.ok l
  | _ => Except.error "TypeError: value is not iterable"

/-- A value used as a dict (`offer_detail.copy()` etc.): non-dicts raise
an `AttributeError`. -/
def asDict (v : PyVal) : Except String PyDict :=
  match v with
  | PyVal.dict d => Except.ok d
  | _ => Except.error "AttributeError: value has no attribute copy"

/-! ## The merchant-name normalization of `parse_offer`

`parse_offer` derives the `eshop` field from the raw `CustName` field via
`urllib.parse.urlparse(...).netloc.lower()` with a fallback to the
lower-cased raw string, then `re.sub('(^www.)|(/*)', "", eshop)`.
Below is a model of the `netloc` component of `urlparse` and of that
specific regex substitution. -/

/-- Python `str.lower()` (character-wise `Char.toLower`, which lowers the
basic Latin uppercase range — adequate for the ASCII data handled here). -/
def pyLower (s : String) : String := String.mk (s.data.map Char.toLower)

/-- Characters allowed in a URL scheme (`urllib.parse.scheme_chars`). -/
def isSchemeChar (c : Char) : Bool :=
  c.isAlpha || c.isDigit || c = '+' || c = '-' || c = '.'

/-- The scheme-splitting step of `urllib.parse.urlsplit`: when the URL
has a `:` at a positive position and everything before it is made of
scheme characters, drop the scheme and the colon. -/
def stripScheme (cs : List Char) : List Char :=
  match cs.findIdx? (fun c => c = ':') with
  | some i => if 0 < i && (cs.take i).all isSchemeChar then cs.drop (i + 1) else cs
  | Option.none => cs

/-- Model of `urllib.parse.urlparse(s).netloc`: after the scheme is stripped, the
netloc is present only when the rest starts with `//`, and extends to the
first of `/`, `?`, `#`.  A netloc with unbalanced square brackets raises
`ValueError` ("Invalid IPv6 URL"). -/
def urlNetloc (s : String) : Except String String :=
  let cs := stripScheme s.data
  if cs.take 2 = ['/', '/'] then
    let nl := (cs.drop 2).takeWhile (fun c => !(c = '/' || c = '?' || c = '#'))
    if ('[' ∈ nl && ']' ∉ nl) || (']' ∈ nl && '[' ∉ nl) then
      Except.error "ValueError: Invalid IPv6 URL"
    else Except.ok (String.mk nl)
  else Except.ok ""

/-- The left-to-right scan of `re.sub` for the branch `/*` of the pattern
`(^www.)|(/*)`: a maximal (possibly empty) run of slashes matches at
every position and is replaced by nothing, so every `/` is removed. -/
def scanSub : List Char → List Char
  | [] => []
  | c :: cs => if c = '/' then scanSub cs else c :: scanSub cs

/-- The anchored branch `^www.` of the pattern: it matches only at
position 0 and consumes `www` plus any single character other than a
newline (`.` is not a literal dot), which `re.sub` deletes. -/
def wwwStripped (s : String) : String :=
  match s.data with
  | 'w' :: 'w' :: 'w' :: c :: rest => if c = '\n' then s else String.mk rest
  | _ => s

/-- Model of `re.sub('(^www.)|(/*)', "", s)`: at position 0 the anchored branch
`^www.` is tried first, and the scan then continues with the `/*`
branch over the remainder, deleting every slash. -/
def reSubEshop (s : String) : String :=
  String.mk (scanSub (wwwStripped s).data)

/-- Embedding of `parse_offer` from `main.py`: copy the offer, derive the normalized
`eshop` merchant identifier from `CustName`, and store it on the copy.
Raises (`TypeError` inside `urlparse`) when `CustName` holds a non-string
value. -/
def parse_offer (offer_raw : PyDict) : Except String PyDict := do
  let custVal := (dget offer_raw "CustName").getD (PyVal.str "")
  let cust ← match custVal with
    | PyVal.str s => Except.ok s
    | _ => Except.error "TypeError: urlparse expects a string"
  let netloc ← urlNetloc cust
  let eshop := if pyLower netloc ≠ "" then pyLower netloc else pyLower cust
  Except.ok (dinsert offer_raw "eshop" (PyVal.str (reSubEshop eshop)))

/-- The `common_keys` dict built by the first two statements of
`parse_product`: every product attribute except `offers` renamed with a
`product_` disambiguating tag, plus the derived catalog URL. -/
def parse_product_common (product_card : PyDict) : PyDict :=
  let common0 := fromPairs ((product_card.filter (fun p => !(p.1 = "offers"))).map
    (fun p => ("product_" ++ p.1, p.2)))
  dinsert common0 "cse_url"
    (PyVal.str ("https://ceneo.pl/" ++ pyStr ((dget common0 "product_CeneoProdID").getD (PyVal.str ""))))

/-- The offer loop of `parse_product`: `{**common_keys, **parse_offer(o)}`
for each entry of the offer list, propagating any exception. -/
def offersMap (common : PyDict) : List PyVal → Except String (List PyDict)
  | [] => Except.ok []
  | od :: rest => do
      let d ← asDict od
      let po ← parse_offer d
      let tl ← offersMap common rest
      Except.ok (dmerge common po :: tl)

/-- Embedding of `parse_product` from `main.py`: one record per offer, or one bare
record when the `offers` key is absent or `None`. -/
def parse_product (product_card : PyDict) : Except String (List PyDict) := do
  let common_keys := parse_product_common product_card
  match dget product_card "offers" with
  | Option.none => Except.ok [common_keys]
  | some PyVal.none => Except.ok [common_keys]
  | some offersV => do
      let offerV ← pySubscript offersV "offer"
      let offer_details ← pyIterList offerV
      offersMap common_keys offer_details

/-- The offers of a product parsed individually (no merge): used to state
what `parse_product` produces for a product with `N ≥ 1` offers. -/
def offersParsed : List PyVal → Except String (List PyDict)
  | [] => Except.ok []
  | od :: rest => do
      let d ← asDict od
      let po ← parse_offer d
      let tl ← offersParsed rest
      Except.ok (po :: tl)

/-- The outcome of the `requests.get` call in `scrape_batch`: either the
call raised (any transport exception), or a response arrived with an HTTP
status code and a body; `body = none` stands for a body on which
`req.json()` raises (not JSON at all). -/
inductive ReqOutcome where
  | exn
  | resp (status : Nat) (body : Option PyVal)

/-- Embedding of `scrape_batch` from `main.py`.  The `try` block guards only the
`requests.get` call; everything in the `else` branch runs unguarded, so
subscript and decode errors there propagate to the caller.  `req.ok` is
`status < 400`. -/
def scrape_batch (url key : String) (batch_ids : List String) (outcome : ReqOutcome) :
    Except String (Option (List PyDict)) :=
  match outcome with
  | ReqOutcome.exn => Except.ok Option.none
  | ReqOutcome.resp status body =>
    if !(status < 400) then Except.ok Option.none
    else do
      let req_json ← match body with
        | some v => Except.ok v
        | Option.none => Except.error "json.JSONDecodeError"
      let respV ← pySubscript req_json "Response"
      let statusV ← pySubscript respV "Status"
      if !(isStrEq statusV "OK") then Except.ok Option.none
      else do
        let resultV ← pySubscript respV "Result"
        let hasKey ← pyKeysContains resultV "product_offers_by_ids"
        if !hasKey then Except.ok Option.none
        else do
          let pobisV ← pySubscript resultV "product_offers_by_ids"
          let pobiV ← pySubscript pobisV "product_offers_by_id"
          let items ← pyIterList pobiV
          let parsed ← parseProducts items
          Except.ok (some parsed.join)
where
  /-- The comprehension `[parse_product(item) for item in ...]` with exception propagation. -/
  parseProducts : List PyVal → Except String (List (List PyDict))
    | [] => Except.ok []
    | it :: rest => do
        let d ← asDict it
        let recs ← parse_product d
        let tl ← parseProducts rest
        Except.ok (recs :: tl)

/-! ## The `batches` generator -/

/-- Structural worker for `gby` below: the fuel argument (instantiated
with the list length, which bounds the recursion depth) makes the
definition structurally recursive, so that concrete runs reduce inside
the kernel. -/
def gbyAux (B : Nat) : Nat → List (Nat × α) → List (Nat × List α)
  | _, [] => []
  | 0, _ :: _ => []
  | fuel + 1, (i, a) :: rest =>
      (i / B, a :: (rest.takeWhile (fun p => p.1 / B = i / B)).map Prod.snd)
        :: gbyAux B fuel (rest.dropWhile (fun p => p.1 / B = i / B))

/-- The `itertools.groupby(enumerate(...), key=lambda x: x[0] // batch_size)`
pipeline of `batches`, materialised: consecutive runs of equal
`index / batch_size`, each run reduced to its key and its list of items
(`[prod_id for _, prod_id in g]`). -/
def gby (B : Nat) (l : List (Nat × α)) : List (Nat × List α) :=
  gbyAux B l.length l

/-- Embedding of `batches(product_list, batch_size)` from `main.py`, as the finite
sequence of yielded `(batch index, ids)` pairs.  The generator first
yields `next(gen, (None, []))` — the degenerate `(None, [])` pair when
the grouped enumeration is empty — then the remaining groups (the
`time.sleep` rate limiting has no effect on the yielded data and is not
modelled).  A `None` index is modelled by `Option.none`. -/
def batches (product_list : List α) (batch_size : Nat) : List (Option Nat × List α) :=
  match (gby batch_size (List.enumFrom 0 product_list)).map
      (fun p => ((some p.1 : Option Nat), p.2)) with
  | [] => [(Option.none, [])]
  | b :: rest => b :: rest

/-- Structural worker for `chunksOf` below (fuel bounds the recursion
depth, as for `gbyAux`). -/
def chunksOfAux (B : Nat) : Nat → List α → List (List α)
  | _, [] => []
  | 0, _ :: _ => []
  | fuel + 1, x :: xs => (x :: xs.take (B - 1)) :: chunksOfAux B fuel (xs.drop (B - 1))

/-- Reference chunking used to state what `batches` yields: split a list
into consecutive chunks of `B` elements (the final chunk may be short).
For `B = 0` the `B - 1` saturates and it degenerates to singleton chunks;
it is only ever used with `0 < B`. -/
def chunksOf (B : Nat) (l : List α) : List (List α) :=
  chunksOfAux B l.length l

/-! ## The producer / consumer pipeline -/

/-- A Python `datetime` instant as far as the two `strftime` calls of
`producer` observe it. -/
structure PyDateTime where
  year : Nat
  month : Nat
  day : Nat
  hour : Nat
  minute : Nat
  second : Nat

/-- Zero-padded two-digit rendering (`%m`, `%d`, `%H`, `%M`, `%S`). -/
def pad2 (n : Nat) : String :=
  if n < 10 then "0" ++ toString n else toString n

/-- Zero-padded four-digit rendering (`%Y`). -/
def pad4 (n : Nat) : String :=
  if n < 10 then "000" ++ toString n
  else if n < 100 then "00" ++ toString n
  else if n < 1000 then "0" ++ toString n
  else toString n

/-- Format `strftime("%Y-%m-%d %H:%M:%S")` — the display form stored in `TS`. -/
def strftimeDisplay (t : PyDateTime) : String :=
  pad4 t.year ++ "-" ++ pad2 t.month ++ "-" ++ pad2 t.day ++ " " ++
    pad2 t.hour ++ ":" ++ pad2 t.minute ++ ":" ++ pad2 t.second

/-- Format `strftime("%Y%m%d%H%M%S")` — the compact form embedded in `SOURCE_ID`. -/
def strftimeCompact (t : PyDateTime) : String :=
  pad4 t.year ++ pad2 t.month ++ pad2 t.day ++
    pad2 t.hour ++ pad2 t.minute ++ pad2 t.second

/-- The constant run-scoped fields merged into every output row
(`{"TS": ..., "COUNTRY": "PL", ...}`). -/
def constDict (ts tss : String) : PyDict :=
  [("TS", PyVal.str ts), ("COUNTRY", PyVal.str "PL"), ("DISTRCHAN", PyVal.str "MA"),
   ("SOURCE", PyVal.str "ceneo"),
   ("SOURCE_ID", PyVal.str ("ceneo_PL_" ++ tss)), ("FREQ", PyVal.str "d")]

/-- The three per-item guards of the producer comprehension: a truthy
`product_CeneoProdID`, a `CustName` different from `""`, and a `Price`
different from `""` (the `.get` defaults are `""` for the latter two,
`None` for the first). -/
def keepItem (item : PyDict) : Bool :=
  pyTruthy ((dget item "product_CeneoProdID").getD PyVal.none)
    && !(isStrEq ((dget item "CustName").getD (PyVal.str "")) "")
    && !(isStrEq ((dget item "Price").getD (PyVal.str "")) "")

/-- The per-item projection of the producer comprehension:
`{**{columns_mapping[c]: v for c, v in item.items() if c in columns_mapping},
**constants}`. -/
def projectItem (cm : List (String × String)) (ts tss : String) (item : PyDict) : PyDict :=
  dmerge
    (fromPairs (item.filterMap (fun p => (sget cm p.1).map (fun nk => (nk, p.2)))))
    (constDict ts tss)

/-- The `results = [...]` comprehension of `producer` evaluated on one
batch result.  When `scrape_batch` returned `None`, the comprehension
iterates over `None` and raises `TypeError` — the trailing
`if batch_result` guard is evaluated only per item, after iteration has
already begun, so it cannot absorb a `None` result (its only effect,
filtering when the list is empty, is vacuous). -/
def buildResults (cm : List (String × String)) (ts tss : String)
    (batch_result : Option (List PyDict)) : Except String (List PyDict) :=
  match batch_result with
  | Option.none => Except.error "TypeError: NoneType object is not iterable"
  | some items =>
      Except.ok ((items.filter (fun item => keepItem item && !items.isEmpty)).map
        (projectItem cm ts tss))

/-- An item travelling on the bounded queue: a row set, or the literal
string sentinel `"DONE"` (a row set, being a list, never compares equal
to that string, so a tagged sum is a faithful model of the dynamic
typing). -/
inductive QItem where
  | chunk (rows : List PyDict)
  | DONE

/-- Whether a queue item is the `"DONE"` sentinel. -/
def isDone : QItem → Bool
  | QItem.DONE => true
  | QItem.chunk _ => false

/-- The per-batch body of `producer`, over the yielded batch list: scrape,
build the row set, enqueue it; after the last batch enqueue `DONE`.
Returns the enqueued items, and whether the loop ran to completion
(`false` means an exception escaped the producer thread: nothing further
— in particular no sentinel — is ever enqueued). -/
def producerLoop (scrape : List String → Except String (Option (List PyDict)))
    (cm : List (String × String)) (ts tss : String) :
    List (Option Nat × List String) → List QItem × Bool
  | [] => ([QItem.DONE], true)
  | (_, ids) :: rest =>
      match scrape ids with
      | Except.error _ => ([], false)
      | Except.ok batch_result =>
          match buildResults cm ts tss batch_result with
          | Except.error _ => ([], false)
          | Except.ok rows =>
              let t := producerLoop scrape cm ts tss rest
              (QItem.chunk rows :: t.1, t.2)

/-- Embedding of `producer` from `main.py`, with the external collaborators abstracted:
`scrape` is the remote call (already including flattening, as in
`scrape_batch`), `clock n` is the instant returned by the `n`-th
`datetime.datetime.utcnow()` call, `product_ids` and `cm` come from
`parse_configs()`.  Note the two distinct clock reads, one per `strftime`
format, exactly as in the source. -/
def producerRun (scrape : List String → Except String (Option (List PyDict)))
    (clock : Nat → PyDateTime) (product_ids : List String) (batch_size : Nat)
    (cm : List (String × String)) : List QItem × Bool :=
  let utctime_started := strftimeDisplay (clock 0)
  let utctime_started_short := strftimeCompact (clock 1)
  producerLoop scrape cm utctime_started utctime_started_short
    (batches product_ids batch_size)

/-- The `writer` loop from `main.py`, fed the sequence of items the
producer put on the queue: it dequeues until the `"DONE"` sentinel
(whereupon it sets the event and stops), writing the rows of every chunk
before it.  Result: the rows written, and whether the loop terminated
(an exhausted list with no sentinel leaves the writer blocked on
`task_queue.get()` forever — `false`). -/
def writerTrace : List QItem → List PyDict × Bool
  | [] => ([], false)
  | QItem.DONE :: _ => ([], true)
  | QItem.chunk rs :: rest =>
      let t := writerTrace rest
      (rs ++ t.1, t.2)

/-! ## Heap model of `parse_offer` / `parse_product` (mutation frame)

To make the copy-before-write discipline of `parse_offer` observable, the
functions are re-embedded over an explicit store of dict objects: nested
dicts are `PyVal.ref` pointers into the store, `.copy()` allocates, and
`offer["eshop"] = ...` writes through a pointer.  The pure embeddings
above correspond to these on ref-free data. -/

/-- A store of Python dict objects; `PyVal.ref r` points at slot `r`. -/
abbrev Store := List PyDict

/-- Assignment `d[k] = v` through a store reference. -/
def storeSet (σ : Store) (r : Nat) (k : String) (v : PyVal) : Store :=
  σ.set r (dinsert (σ.getD r []) k v)

/-- Embedding of `parse_offer` against the store: read the offer dict, allocate its
shallow copy at the end of the store, then write the derived `eshop`
field into the copy (and only the copy).  Returns the new store and the
reference of the copy. -/
def parse_offer_st (σ : Store) (r : Nat) : Except String (Store × Nat) := do
  let offer_raw ← match σ.get? r with
    | some d => Except.ok d
    | Option.none => Except.error "invalid reference"
  let σ1 := σ ++ [offer_raw]
  let rNew := σ.length
  let custVal := (dget offer_raw "CustName").getD (PyVal.str "")
  let cust ← match custVal with
    | PyVal.str s => Except.ok s
    | _ => Except.error "TypeError: urlparse expects a string"
  let netloc ← urlNetloc cust
  let eshop := if pyLower netloc ≠ "" then pyLower netloc else pyLower cust
  Except.ok (storeSet σ1 rNew "eshop" (PyVal.str (reSubEshop eshop)), rNew)

/-- The offer loop of `parse_product` against the store: each offer entry
must be a dict reference; `parse_offer_st` is applied to it and the
resulting copy is merged over the common fields. -/
def offersLoop_st (common : PyDict) : Store → List PyVal → Except String (Store × List PyDict)
  | σ, [] => Except.ok (σ, [])
  | σ, PyVal.ref ro :: rest => do
      let p ← parse_offer_st σ ro
      let po := p.1.getD p.2 []
      let t ← offersLoop_st common p.1 rest
      Except.ok (t.1, dmerge common po :: t.2)
  | _, _ :: _ => Except.error "AttributeError: value has no attribute copy"

/-- Embedding of `parse_product` against the store: the product dict is read through
its reference, `offers` (when present and not `None`) must be a dict
reference whose `offer` entry is a list of dict references.  The returned
records are the freshly built merged dicts, by value. -/
def parse_product_st (σ : Store) (r : Nat) : Except String (Store × List PyDict) := do
  let pc ← match σ.get? r with
    | some d => Except.ok d
    | Option.none => Except.error "invalid reference"
  let common_keys := parse_product_common pc
  match dget pc "offers" with
  | Option.none => Except.ok (σ, [common_keys])
  | some PyVal.none => Except.ok (σ, [common_keys])
  | some (PyVal.ref ro) => do
      let od ← match σ.get? ro with
        | some d => Except.ok d
        | Option.none => Except.error "invalid reference"
      let offerV ← match dget od "offer" with
        | some v => Except.ok v
        | Option.none => Except.error "KeyError: offer"
      let offs ← pyIterList offerV
      offersLoop_st common_keys σ offs
  | some _ => Except.error "TypeError: value is not subscriptable"

/-! ## Spec-side definition and concrete scenario data -/

/-- Modelled from the claim wording (for comparison with the code): the
lower-cased host component of the raw field parsed as a URL, or the
lower-cased raw field verbatim when no host component is extractable,
with only a leading literal `"www."` stripped. -/
def eshopClaim (raw : String) : String :=
  let host := match urlNetloc raw with
    | Except.ok nl => pyLower nl
    | Except.error _ => ""
  let base := if host ≠ "" then host else pyLower raw
  if base.startsWith "www." then base.drop 4 else base

/-- End-to-end scenario stub: the product record for id "1", carrying one
offer with a price and a merchant URL. -/
def scenCard1 : PyDict :=
  [("CeneoProdID", PyVal.str "1"),
   ("offers", PyVal.dict [("offer", PyVal.list
      [PyVal.dict [("CustName", PyVal.str "http://shopA.com"), ("Price", PyVal.str "9.99")]])])]

/-- End-to-end scenario stub: the product record for id "2", no offers. -/
def scenCard2 : PyDict := [("CeneoProdID", PyVal.str "2")]

/-- End-to-end scenario stub: the response envelope for the batch
`["1", "2"]`. -/
def scenEnvelope : PyVal :=
  PyVal.dict [("Response", PyVal.dict
    [("Status", PyVal.str "OK"),
     ("Result", PyVal.dict [("product_offers_by_ids", PyVal.dict
        [("product_offers_by_id", PyVal.list [PyVal.dict scenCard1, PyVal.dict scenCard2])])])])]

/-- End-to-end scenario stub remote API: batch `["1", "2"]` answers with
the envelope above; the batch holding id "3" fails in transport. -/
def scenOutcome (ids : List String) : ReqOutcome :=
  if ids = ["1", "2"] then ReqOutcome.resp 200 (some scenEnvelope) else ReqOutcome.exn

/-- The scenario fetch: `scrape_batch` against the stub API. -/
def scenScrape (ids : List String) : Except String (Option (List PyDict)) :=
  scrape_batch "https://ceneoapi.example" "key" ids (scenOutcome ids)

/-- A plausible columns mapping for the scenario. -/
def scenCM : List (String × String) :=
  [("product_CeneoProdID", "CSE_ID"), ("cse_url", "CSE_URL"),
   ("eshop", "ESHOP"), ("Price", "PRICE")]

/-- A constant clock for scenarios where timing is irrelevant. -/
def scenClock : Nat → PyDateTime := fun _ => ⟨2020, 1, 1, 0, 0, 0⟩

/-- The end-to-end scenario run: ids `{"1","2","3"}`, batch size 2. -/
def scenRun : List QItem × Bool := producerRun scenScrape scenClock ["1", "2", "3"] 2 scenCM

/-- A clock whose second `utcnow()` reading falls one second after the
first — the run crossed a second boundary between the two calls. -/
def clockSkewed : Nat → PyDateTime :=
  fun n => if n = 0 then ⟨2020, 1, 1, 0, 0, 0⟩ else ⟨2020, 1, 1, 0, 0, 1⟩

/-- A fetch stub returning one well-formed record for any batch. -/
def oneItemScrape : List String → Except String (Option (List PyDict)) :=
  fun _ => Except.ok (some [[("product_CeneoProdID", PyVal.str "1"),
    ("CustName", PyVal.str "x"), ("Price", PyVal.str "9.99")]])

/-- The first row of the first enqueued chunk of a queue trace. -/
def firstRow (q : List QItem) : PyDict :=
  match q with
  | QItem.chunk (r :: _) :: _ => r
  | _ => []

/-- A run of the producer against a fetch that reports an absent result
(`scrape_batch` returned `None`) for its only batch. -/
def noneFetchRun : List QItem × Bool :=
  producerRun (fun _ => Except.ok Option.none) scenClock ["3"] 2 scenCM

/-- A record that passes all three producer filters. -/
def keptItem : PyDict :=
  [("product_CeneoProdID", PyVal.str "1"), ("CustName", PyVal.str "x"),
   ("Price", PyVal.str "9.99")]

/-- A one-entry columns mapping whose key is absent from `keptItem`. -/
def urlOnlyCM : List (String × String) := [("URL", "URL")]

/-- A concrete store for the frame witness: a product dict at slot 0
whose `offers` points at slot 1, whose offer list points at slot 2. -/
def frameStore : Store :=
  [[("CeneoProdID", PyVal.str "5"), ("offers", PyVal.ref 1)],
   [("offer", PyVal.list [PyVal.ref 2])],
   [("CustName", PyVal.str "http://WWW.Example.com/x"), ("Price", PyVal.str "7")]]

/-! ## Dictionary lemmas -/

theorem dget_append (a b : PyDict) (k : String) :
    dget (a ++ b) k = ((dget a k).or (dget b k)) := by
  induction a with
  | nil => simp [dget]
  | cons p ps ih =>
      by_cases h : p.1 = k <;> simp [dget, h, ih]

theorem dget_map_update (d : PyDict) (k0 : String) (v : PyVal) (k : String) :
    dget (d.map (fun p => if p.1 = k0 then (p.1, v) else p)) k =
      if k0 = k then (dget d k).map (fun _ => v) else dget d k := by
  induction d with
  | nil => by_cases h : k0 = k <;> simp [dget, h]
  | cons p ps ih =>
      simp only [List.map_cons]
      by_cases h0 : p.1 = k0 <;> by_cases h : p.1 = k
      · have hk : k0 = k := h0.symm.trans h
        rw [if_pos h0]
        simp [dget, h, hk]
      · have hk : ¬ k0 = k := fun e => h (h0.trans e)
        rw [if_pos h0]
        simp [dget, h, hk, ih]
      · have hk : ¬ k0 = k := fun e => h0 (h.trans e.symm)
        rw [if_neg h0]
        simp [dget, h, hk]
      · rw [if_neg h0]
        simp [dget, h, ih]

theorem dget_dinsert (d : PyDict) (k0 : String) (v : PyVal) (k : String) :
    dget (dinsert d k0 v) k = if k0 = k then some v else dget d k := by
  unfold dinsert
  by_cases hs : (dget d k0).isSome
  · rw [if_pos hs, dget_map_update]
    by_cases h : k0 = k
    · subst h
      obtain ⟨w, hw⟩ := Option.isSome_iff_exists.mp hs
      simp [hw]
    · simp [h]
  · rw [if_neg hs, dget_append]
    by_cases h : k0 = k
    · subst h
      simp only [Option.not_isSome_iff_eq_none] at hs
      simp [hs, dget]
    · rw [if_neg h]
      have hone : dget [(k0, v)] k = Option.none := by simp [dget, h]
      rw [hone]
      cases dget d k <;> simp

theorem dget_map_getD (a b : PyDict) (k : String) :
    dget (a.map (fun p => (p.1, (dget b p.1).getD p.2))) k =
      (dget a k).map (fun v => (dget b k).getD v) := by
  induction a with
  | nil => simp [dget]
  | cons p ps ih =>
      by_cases h : p.1 = k
      · subst h; simp [dget, ih]
      · simp [dget, h, ih]

theorem dget_filter_absent (a b : PyDict) (k : String) :
    dget (b.filter (fun p => (dget a p.1).isNone)) k =
      if (dget a k).isNone then dget b k else Option.none := by
  induction b with
  | nil => by_cases h : (dget a k).isNone <;> simp [dget, h]
  | cons p ps ih =>
      by_cases h : p.1 = k
      · subst h
        by_cases ha : (dget a p.1).isNone
        · simp [List.filter_cons, ha, dget, ih]
        · simp [List.filter_cons, ha, dget, ih]
      · by_cases ha : (dget a p.1).isNone
        · simp [List.filter_cons, ha, dget, h, ih]
        · simp [List.filter_cons, ha, dget, h, ih]

theorem dget_dmerge (a b : PyDict) (k : String) :
    dget (dmerge a b) k = ((dget b k).or (dget a k)) := by
  unfold dmerge
  rw [dget_append, dget_map_getD, dget_filter_absent]
  cases ha : dget a k <;> cases hb : dget b k <;> simp

theorem dget_foldl_dinsert (ps : List (String × PyVal)) (d0 : PyDict) (k : String) :
    (dget (ps.foldl (fun d p => dinsert d p.1 p.2) d0) k).isSome ↔
      (dget d0 k).isSome ∨ ∃ v, (k, v) ∈ ps := by
  induction ps generalizing d0 with
  | nil => simp
  | cons p ps ih =>
      rw [List.foldl_cons, ih, dget_dinsert]
      by_cases h : p.1 = k
      · rw [if_pos h]
        constructor
        · intro _
          refine Or.inr ⟨p.2, ?_⟩
          rw [← h]
          exact List.mem_cons_self _ _
        · intro _
          exact Or.inl (by simp)
      · rw [if_neg h]
        constructor
        · rintro (h1 | h1)
          · exact Or.inl h1
          · exact Or.inr (h1.imp (fun v hv => List.mem_cons_of_mem _ hv))
        · rintro (h1 | ⟨v, hv⟩)
          · exact Or.inl h1
          · rcases List.mem_cons.mp hv with h1 | h1
            · exact absurd (by rw [← h1]) h
            · exact Or.inr ⟨v, h1⟩

theorem dget_fromPairs_isSome (ps : List (String × PyVal)) (k : String) :
    (dget (fromPairs ps) k).isSome ↔ ∃ v, (k, v) ∈ ps := by
  unfold fromPairs
  rw [dget_foldl_dinsert]
  simp [dget]

/-! ## Regex-scan lemmas -/

theorem scanSub_eq_filter (cs : List Char) :
    scanSub cs = cs.filter (fun c => !(c = '/')) := by
  induction cs with
  | nil => rfl
  | cons c cs ih => by_cases h : c = '/' <;> simp [scanSub, List.filter_cons, h, ih]

/-! ## Claim C5 — merchant normalization -/

/-- C5 (amended): the derived merchant identifier is the lower-cased host
component of the raw `CustName` parsed as a URL (the lower-cased raw
field when no host is extractable), after which the substitution
`re.sub('(^www.)|(/*)', "", ...)` removes a leading `"www"` followed by
any single non-newline character (not only a literal `"www."`) and
deletes every `/` anywhere in the string (not only a leading prefix).
The two examples of the spec hold as stated. -/
theorem parse_offer_eshop_normalization :
    (∀ (raw nl : String) (d : PyDict),
        dget d "CustName" = some (PyVal.str raw) →
        urlNetloc raw = Except.ok nl →
        parse_offer d = Except.ok (dinsert d "eshop" (PyVal.str (String.mk
          ((wwwStripped (if pyLower nl ≠ "" then pyLower nl else pyLower raw)).data.filter
            (fun c => !(c = '/')))))))
    ∧ parse_offer [("CustName", PyVal.str "http://WWW.Example.com/x")] =
        Except.ok [("CustName", PyVal.str "http://WWW.Example.com/x"),
                   ("eshop", PyVal.str "example.com")]
    ∧ parse_offer [("CustName", PyVal.str "MyShop")] =
        Except.ok [("CustName", PyVal.str "MyShop"), ("eshop", PyVal.str "myshop")] := by
  refine ⟨?_, rfl, rfl⟩
  intro raw nl d hcust hnet
  simp [parse_offer, hcust, hnet, reSubEshop, scanSub_eq_filter, Bind.bind, Except.bind]

/-- Witness for `parse_offer_eshop_normalization` at a concrete offer. -/
theorem parse_offer_eshop_normalization_witness :
    parse_offer [("CustName", PyVal.str "http://WWW.Shop.com/a/b")] =
      Except.ok (dinsert [("CustName", PyVal.str "http://WWW.Shop.com/a/b")] "eshop"
        (PyVal.str (String.mk ((wwwStripped
          (if pyLower "WWW.Shop.com" ≠ "" then pyLower "WWW.Shop.com"
           else pyLower "http://WWW.Shop.com/a/b")).data.filter (fun c => !(c = '/')))))) :=
  parse_offer_eshop_normalization.1 "http://WWW.Shop.com/a/b" "WWW.Shop.com" _ rfl rfl

/-- C5 (counterexample): for the raw field `"a/b"` no host is
extractable, so the claim predicts the lower-cased raw field verbatim
(`"a/b"`, no leading `"www."` to strip), but the code deletes the
interior slash and yields `"ab"`. -/
theorem eshop_strips_slashes_counterexample :
    parse_offer [("CustName", PyVal.str "a/b")] =
      Except.ok [("CustName", PyVal.str "a/b"), ("eshop", PyVal.str "ab")]
    ∧ eshopClaim "a/b" = "a/b"
    ∧ ("ab" : String) ≠ "a/b" := ⟨rfl, rfl, by decide⟩

/-! ## Claim C1 — `scrape_batch` failure handling -/

/-- C1 (amended): `scrape_batch` returns `None` without raising for a
raised transport exception, a non-success HTTP status, a decoded envelope
whose `Response.Status` is not the string `"OK"`, and a decoded envelope
whose `Response.Result` dict lacks the `product_offers_by_ids` key.
(Bodies outside these shapes — in particular an envelope missing
`Response`, `Status` or `Result` — are NOT converted: see the
counterexample.) -/
theorem scrape_batch_soft_failures :
    (∀ u k ids, scrape_batch u k ids ReqOutcome.exn = Except.ok Option.none)
  ∧ (∀ u k ids st body, ¬ st < 400 →
      scrape_batch u k ids (ReqOutcome.resp st body) = Except.ok Option.none)
  ∧ (∀ u k ids st (respD : PyDict) (stv : PyVal) (env : PyDict), st < 400 →
      dget env "Response" = some (PyVal.dict respD) →
      dget respD "Status" = some stv →
      isStrEq stv "OK" = false →
      scrape_batch u k ids (ReqOutcome.resp st (some (PyVal.dict env))) = Except.ok Option.none)
  ∧ (∀ u k ids st (respD resD env : PyDict), st < 400 →
      dget env "Response" = some (PyVal.dict respD) →
      dget respD "Status" = some (PyVal.str "OK") →
      dget respD "Result" = some (PyVal.dict resD) →
      dget resD "product_offers_by_ids" = Option.none →
      scrape_batch u k ids (ReqOutcome.resp st (some (PyVal.dict env))) = Except.ok Option.none) := by
  refine ⟨fun u k ids => rfl, ?_, ?_, ?_⟩
  · intro u k ids st body h
    simp [scrape_batch, h]
  · intro u k ids st respD stv env hst hresp hstat hok
    simp [scrape_batch, hst, pySubscript, hresp, hstat, hok, Bind.bind, Except.bind]
  · intro u k ids st respD resD env hst hresp hstat hres hmiss
    simp [scrape_batch, hst, pySubscript, hresp, hstat, hres, hmiss, pyKeysContains, isStrEq,
      Bind.bind, Except.bind]

/-- Witness for `scrape_batch_soft_failures` at concrete outcomes. -/
theorem scrape_batch_soft_failures_witness :
    scrape_batch "u" "k" ["1"] (ReqOutcome.resp 500 Option.none) = Except.ok Option.none ∧
    scrape_batch "u" "k" ["1"] (ReqOutcome.resp 200 (some (PyVal.dict
      [("Response", PyVal.dict [("Status", PyVal.str "Error")])]))) = Except.ok Option.none :=
  ⟨scrape_batch_soft_failures.2.1 "u" "k" ["1"] 500 Option.none (by decide),
   scrape_batch_soft_failures.2.2.1 "u" "k" ["1"] 200 [("Status", PyVal.str "Error")]
     (PyVal.str "Error") [("Response", PyVal.dict [("Status", PyVal.str "Error")])]
     (by decide) rfl rfl rfl⟩

/-- C1 (counterexample): a success-status response whose body is valid
JSON but not the expected shape — here the empty object — makes
`scrape_batch` raise a `KeyError` out of its boundary instead of
returning `None`: the `try` block guards only the `requests.get` call,
not the envelope accesses below it. -/
theorem scrape_batch_raises_on_malformed_envelope :
    scrape_batch "u" "k" ["1"] (ReqOutcome.resp 200 (some (PyVal.dict []))) =
      Except.error "KeyError: Response"
    ∧ (Except.error "KeyError: Response" : Except String (Option (List PyDict))) ≠
        Except.ok Option.none :=
  ⟨rfl, fun h => Except.noConfusion h⟩

/-! ## Claim C2 — absent batch handling in the producer -/

/-- C2 (code bug): the spec and the comprehension's own comment
(`# drop empty sublists or None results`) say an absent (`None`) batch
result must contribute zero rows without raising; but the comprehension
iterates `for item in batch_result` before any guard is evaluated, so a
`None` result raises `TypeError` and the producer thread dies without
enqueuing anything further — in particular the `DONE` sentinel is never
enqueued and subsequent batches are never processed. -/
theorem producer_crashes_on_absent_batch :
    buildResults scenCM "t" "s" Option.none =
      Except.error "TypeError: NoneType object is not iterable"
    ∧ noneFetchRun = ([], false) := ⟨rfl, rfl⟩

/-! ## Claim C9 — run timestamps -/

/-- C9 (counterexample): `producer` calls `utcnow()` twice, once per
format.  Two runs whose first (pipeline-start) reading is the same
instant differ in `SOURCE_ID` when the second reading differs: under the
skewed clock `TS` shows second 0 while `SOURCE_ID` embeds second 1, so
the two string forms are not derived from one instant captured once. -/
theorem source_id_uses_second_clock_reading :
    clockSkewed 0 = scenClock 0
    ∧ dget (firstRow (producerRun oneItemScrape scenClock ["1"] 2 []).1) "TS"
        = some (PyVal.str "2020-01-01 00:00:00")
    ∧ dget (firstRow (producerRun oneItemScrape clockSkewed ["1"] 2 []).1) "TS"
        = some (PyVal.str "2020-01-01 00:00:00")
    ∧ dget (firstRow (producerRun oneItemScrape scenClock ["1"] 2 []).1) "SOURCE_ID"
        = some (PyVal.str "ceneo_PL_20200101000000")
    ∧ dget (firstRow (producerRun oneItemScrape clockSkewed ["1"] 2 []).1) "SOURCE_ID"
        = some (PyVal.str "ceneo_PL_20200101000001") :=
  ⟨rfl, rfl, rfl, rfl, rfl⟩

/-! ## Claim C6 — projection schema -/

theorem dget_constDict_isSome (ts tss k : String) :
    (dget (constDict ts tss) k).isSome ↔
      k = "TS" ∨ k = "COUNTRY" ∨ k = "DISTRCHAN" ∨ k = "SOURCE" ∨
        k = "SOURCE_ID" ∨ k = "FREQ" := by
  simp only [constDict, dget]
  split_ifs with h1 h2 h3 h4 h5 h6 <;> simp_all <;> tauto

/-- C6 (amended): the output row's field set is exactly the six constant
run-scoped fields together with the mapping images of exactly those
mapping keys that occur in the FlatRecord.  In particular it never holds
a field outside the mapping's value set plus the constants; but a mapping
value all of whose source keys are absent from the record is itself
absent from the row (the claim's "never any missing field" fails — see
the counterexample). -/
theorem projection_schema (cm : List (String × String)) (ts tss : String)
    (item : PyDict) (k : String) :
    (dget (projectItem cm ts tss item) k).isSome ↔
      (k = "TS" ∨ k = "COUNTRY" ∨ k = "DISTRCHAN" ∨ k = "SOURCE" ∨
        k = "SOURCE_ID" ∨ k = "FREQ")
      ∨ ∃ p ∈ item, sget cm p.1 = some k := by
  unfold projectItem
  rw [dget_dmerge]
  have hor : ∀ (a b : Option PyVal), (a.or b).isSome ↔ a.isSome ∨ b.isSome := by
    intro a b; cases a <;> cases b <;> simp
  rw [hor, dget_constDict_isSome, dget_fromPairs_isSome]
  constructor
  · rintro (h | ⟨v, hv⟩)
    · exact Or.inl h
    · obtain ⟨p, hp, hfp⟩ := List.mem_filterMap.mp hv
      refine Or.inr ⟨p, hp, ?_⟩
      cases hs : sget cm p.1 with
      | none => rw [hs] at hfp; exact Option.noConfusion hfp
      | some nk =>
          rw [hs] at hfp
          simp only [Option.map_some'] at hfp
          cases hfp
          rfl
  · rintro (h | ⟨p, hp, hs⟩)
    · exact Or.inl h
    · refine Or.inr ⟨p.2, List.mem_filterMap.mpr ⟨p, hp, ?_⟩⟩
      rw [hs]; rfl

/-- C6 (counterexample): a FlatRecord that passes all three filters,
projected through the mapping `{"URL": "URL"}`, yields a row with no
`URL` field at all — the mapping's value set is not covered when its key
is absent from the record, contradicting "never any missing field". -/
theorem projection_missing_mapped_field :
    keepItem keptItem = true
    ∧ urlOnlyCM.map Prod.snd = ["URL"]
    ∧ dget (projectItem urlOnlyCM "t" "s" keptItem) "URL" = Option.none :=
  ⟨rfl, rfl, rfl⟩

/-! ## Claim C7 — the end-to-end scenario -/

/-- C7 (counterexample): in the spec's end-to-end scenario (ids
`{"1","2","3"}`, batch size 2, an offer for "1", an offer-less product
for "2", a failed fetch for the batch of "3") the pipeline writes exactly
1 row, not the 2 rows the claim expects. -/
theorem scenario_emits_one_row_not_two :
    (writerTrace scenRun.1).1.length = 1 ∧ (1 : Nat) ≠ 2 := ⟨rfl, by decide⟩

/-- C7 (amended): the scenario emits exactly one row — the offer row for
id "1".  The bare product row for "2" is dropped by the producer filters
(it has no `CustName` and no `Price` field, and the filters demand both
non-empty).  The failed batch contributes zero rows; moreover its absent
fetch crashes the producer (claim C2's bug), so the run never enqueues
the sentinel and the writer never terminates. -/
theorem scenario_pipeline_output :
    (writerTrace scenRun.1).1 =
      [[("CSE_ID", PyVal.str "1"), ("CSE_URL", PyVal.str "https://ceneo.pl/1"),
        ("PRICE", PyVal.str "9.99"), ("ESHOP", PyVal.str "shopa.com"),
        ("TS", PyVal.str "2020-01-01 00:00:00"), ("COUNTRY", PyVal.str "PL"),
        ("DISTRCHAN", PyVal.str "MA"), ("SOURCE", PyVal.str "ceneo"),
        ("SOURCE_ID", PyVal.str "ceneo_PL_20200101000000"), ("FREQ", PyVal.str "d")]]
    ∧ scenRun.2 = false
    ∧ (writerTrace scenRun.1).2 = false := ⟨rfl, rfl, rfl⟩

/-! ## Claim C4 — flatten totality -/

theorem offersParsed_length (offs : List PyVal) (pos : List PyDict)
    (h : offersParsed offs = Except.ok pos) : pos.length = offs.length := by
  induction offs generalizing pos with
  | nil =>
      simp only [offersParsed] at h
      injection h with h
      subst h
      rfl
  | cons od rest ih =>
      simp only [offersParsed, Bind.bind, Except.bind] at h
      cases hd : asDict od with
      | error e => simp only [hd] at h; exact Except.noConfusion h
      | ok d =>
          simp only [hd] at h
          cases hpo : parse_offer d with
          | error e => simp only [hpo] at h; exact Except.noConfusion h
          | ok po =>
              simp only [hpo] at h
              cases htl : offersParsed rest with
              | error e => simp only [htl] at h; exact Except.noConfusion h
              | ok tl =>
                  simp only [htl] at h
                  injection h with h
                  subst h
                  simp [ih tl htl]

theorem offersMap_eq_of_offersParsed (common : PyDict) (offs : List PyVal)
    (pos : List PyDict) (h : offersParsed offs = Except.ok pos) :
    offersMap common offs = Except.ok (pos.map (fun po => dmerge common po)) := by
  induction offs generalizing pos with
  | nil =>
      simp only [offersParsed] at h
      injection h with h
      subst h
      rfl
  | cons od rest ih =>
      simp only [offersParsed, Bind.bind, Except.bind] at h
      cases hd : asDict od with
      | error e => simp only [hd] at h; exact Except.noConfusion h
      | ok d =>
          simp only [hd] at h
          cases hpo : parse_offer d with
          | error e => simp only [hpo] at h; exact Except.noConfusion h
          | ok po =>
              simp only [hpo] at h
              cases htl : offersParsed rest with
              | error e => simp only [htl] at h; exact Except.noConfusion h
              | ok tl =>
                  simp only [htl] at h
                  injection h with h
                  subst h
                  simp [offersMap, Bind.bind, Except.bind, hd, hpo, ih tl htl]

/-- C4 (confirmed): with the `offers` key absent or `None`,
`parse_product` yields exactly one record whose field set is exactly the
`product_`-tagged product attributes plus the derived `cse_url` (no
offer-scoped fields); with a well-formed offer list of `N` entries it
yields exactly `N` records, the `i`-th being the merge of the common
product fields under the `i`-th parsed offer's fields, offer fields
winning every key conflict. -/
theorem parse_product_totality :
    (∀ pc : PyDict,
       (dget pc "offers" = Option.none ∨ dget pc "offers" = some PyVal.none) →
       parse_product pc = Except.ok [parse_product_common pc]
       ∧ ∀ k, (dget (parse_product_common pc) k).isSome ↔
           (k = "cse_url" ∨ ∃ p ∈ pc, ¬ p.1 = "offers" ∧ k = "product_" ++ p.1))
  ∧ (∀ (pc od : PyDict) (offs : List PyVal) (pos : List PyDict),
       dget pc "offers" = some (PyVal.dict od) →
       dget od "offer" = some (PyVal.list offs) →
       offersParsed offs = Except.ok pos →
       parse_product pc =
         Except.ok (pos.map (fun po => dmerge (parse_product_common pc) po))
       ∧ pos.length = offs.length
       ∧ ∀ po ∈ pos, ∀ k, dget (dmerge (parse_product_common pc) po) k =
           ((dget po k).or (dget (parse_product_common pc) k))) := by
  have hkeys : ∀ pc : PyDict, ∀ k,
      (dget (parse_product_common pc) k).isSome ↔
        (k = "cse_url" ∨ ∃ p ∈ pc, ¬ p.1 = "offers" ∧ k = "product_" ++ p.1) := by
    intro pc k
    unfold parse_product_common
    rw [dget_dinsert]
    by_cases hk : "cse_url" = k
    · simp [hk.symm]
    · rw [if_neg hk]
      rw [dget_fromPairs_isSome]
      constructor
      · rintro ⟨v, hv⟩
        obtain ⟨p, hp, hfp⟩ := List.mem_map.mp hv
        obtain ⟨hmem, hoff⟩ := List.mem_filter.mp hp
        refine Or.inr ⟨p, hmem, by simpa using hoff, ?_⟩
        exact (congrArg Prod.fst hfp).symm
      · rintro (h | ⟨p, hp, hoff, hk2⟩)
        · exact absurd h.symm hk
        · exact ⟨p.2, List.mem_map.mpr ⟨p, List.mem_filter.mpr ⟨hp, by simpa using hoff⟩,
            by rw [hk2]⟩⟩
  constructor
  · intro pc h
    refine ⟨?_, hkeys pc⟩
    rcases h with h | h <;> simp [parse_product, h]
  · intro pc od offs pos h1 h2 hparsed
    refine ⟨?_, offersParsed_length offs pos hparsed, fun po _ k => dget_dmerge _ po k⟩
    simp [parse_product, h1, h2, pySubscript, pyIterList, Bind.bind, Except.bind,
      offersMap_eq_of_offersParsed _ offs pos hparsed]

/-- Witness for `parse_product_totality`: the two scenario products (one
bare, one with a single offer). -/
theorem parse_product_totality_witness :
    parse_product scenCard2 = Except.ok [parse_product_common scenCard2]
    ∧ parse_product scenCard1 = Except.ok
        ([[("CustName", PyVal.str "http://shopA.com"), ("Price", PyVal.str "9.99"),
           ("eshop", PyVal.str "shopa.com")]].map
          (fun po => dmerge (parse_product_common scenCard1) po)) :=
  ⟨(parse_product_totality.1 scenCard2 (Or.inl rfl)).1,
   (parse_product_totality.2 scenCard1
      [("offer", PyVal.list [PyVal.dict
        [("CustName", PyVal.str "http://shopA.com"), ("Price", PyVal.str "9.99")]])]
      [PyVal.dict [("CustName", PyVal.str "http://shopA.com"), ("Price", PyVal.str "9.99")]]
      [[("CustName", PyVal.str "http://shopA.com"), ("Price", PyVal.str "9.99"),
        ("eshop", PyVal.str "shopa.com")]]
      rfl rfl rfl).1⟩

/-! ## Claim C10 — no mutation of the input records -/

theorem store_get?_append (σ : Store) (d : PyDict) (i : Nat) (h : i < σ.length) :
    (σ ++ [d]).get? i = σ.get? i := by
  induction σ generalizing i with
  | nil => simp at h
  | cons x xs ih =>
      cases i with
      | zero => rfl
      | succ j => exact ih j (Nat.lt_of_succ_lt_succ h)

theorem store_get?_set_ne (σ : Store) (i j : Nat) (d : PyDict) (h : ¬ j = i) :
    (σ.set j d).get? i = σ.get? i := by
  induction σ generalizing i j with
  | nil => rfl
  | cons x xs ih =>
      cases j with
      | zero =>
          cases i with
          | zero => exact absurd rfl h
          | succ i2 => rfl
      | succ j2 =>
          cases i with
          | zero => rfl
          | succ i2 => exact ih i2 j2 (fun e => h (by rw [e]))

theorem parse_offer_st_spec (σ : Store) (r : Nat) (σ2 : Store) (rn : Nat)
    (h : parse_offer_st σ r = Except.ok (σ2, rn)) :
    σ.length ≤ σ2.length ∧ ∀ i, i < σ.length → σ2.get? i = σ.get? i := by
  simp only [parse_offer_st, Bind.bind, Except.bind] at h
  cases hg : σ.get? r with
  | none => simp only [hg] at h; exact Except.noConfusion h
  | some offer_raw =>
      simp only [hg] at h
      cases hc : (dget offer_raw "CustName").getD (PyVal.str "") with
      | str s =>
          simp only [hc] at h
          cases hn : urlNetloc s with
          | error e => simp only [hn] at h; exact Except.noConfusion h
          | ok nl =>
              simp only [hn] at h
              injection h with h
              injection h with h1 h2
              subst h1
              constructor
              · simp [storeSet]
              · intro i hi
                unfold storeSet
                rw [store_get?_set_ne _ _ _ _ (by omega),
                  store_get?_append _ _ _ hi]
      | int n => simp only [hc] at h; exact Except.noConfusion h
      | none => simp only [hc] at h; exact Except.noConfusion h
      | list l => simp only [hc] at h; exact Except.noConfusion h
      | dict d0 => simp only [hc] at h; exact Except.noConfusion h
      | ref r0 => simp only [hc] at h; exact Except.noConfusion h

theorem offersLoop_st_frame (common : PyDict) (offs : List PyVal) :
    ∀ (σ σ2 : Store) (res : List PyDict),
    offersLoop_st common σ offs = Except.ok (σ2, res) →
    ∀ i, i < σ.length → σ2.get? i = σ.get? i := by
  induction offs with
  | nil =>
      intro σ σ2 res h i hi
      simp only [offersLoop_st] at h
      injection h with h
      injection h with h1 h2
      subst h1
      rfl
  | cons off rest ih =>
      intro σ σ2 res h i hi
      cases off with
      | ref ro =>
          simp only [offersLoop_st, Bind.bind, Except.bind] at h
          cases hp : parse_offer_st σ ro with
          | error e => simp only [hp] at h; exact Except.noConfusion h
          | ok p =>
              simp only [hp] at h
              cases ht : offersLoop_st common p.1 rest with
              | error e => simp only [ht] at h; exact Except.noConfusion h
              | ok t =>
                  simp only [ht] at h
                  injection h with h
                  injection h with h1 h2
                  subst h1
                  obtain ⟨hlen, hframe⟩ := parse_offer_st_spec σ ro p.1 p.2 (by
                    rw [hp])
                  rw [ih p.1 t.1 t.2 (by rw [ht]) i (Nat.lt_of_lt_of_le hi hlen)]
                  exact hframe i hi
      | str s => simp only [offersLoop_st] at h; exact Except.noConfusion h
      | int n => simp only [offersLoop_st] at h; exact Except.noConfusion h
      | none => simp only [offersLoop_st] at h; exact Except.noConfusion h
      | list l => simp only [offersLoop_st] at h; exact Except.noConfusion h
      | dict d0 => simp only [offersLoop_st] at h; exact Except.noConfusion h

theorem parse_product_st_frame (σ : Store) (r : Nat) (σ2 : Store) (res : List PyDict)
    (h : parse_product_st σ r = Except.ok (σ2, res)) :
    ∀ i, i < σ.length → σ2.get? i = σ.get? i := by
  intro i hi
  simp only [parse_product_st, Bind.bind, Except.bind] at h
  cases hg : σ.get? r with
  | none => simp only [hg] at h; exact Except.noConfusion h
  | some pc =>
      simp only [hg] at h
      cases ho : dget pc "offers" with
      | none =>
          simp only [ho] at h
          injection h with h
          injection h with h1 h2
          subst h1
          rfl
      | some ov =>
          cases ov with
          | none =>
              simp only [ho] at h
              injection h with h
              injection h with h1 h2
              subst h1
              rfl
          | ref ro =>
              simp only [ho] at h
              cases hg2 : σ.get? ro with
              | none => simp only [hg2] at h; exact Except.noConfusion h
              | some od =>
                  simp only [hg2] at h
                  cases ho2 : dget od "offer" with
                  | none => simp only [ho2] at h; exact Except.noConfusion h
                  | some offerV =>
                      simp only [ho2] at h
                      cases hit : pyIterList offerV with
                      | error e => simp only [hit] at h; exact Except.noConfusion h
                      | ok offs =>
                          simp only [hit] at h
                          exact offersLoop_st_frame _ offs σ σ2 res h i hi
          | str s => simp only [ho] at h; exact Except.noConfusion h
          | int n => simp only [ho] at h; exact Except.noConfusion h
          | list l => simp only [ho] at h; exact Except.noConfusion h
          | dict d0 => simp only [ho] at h; exact Except.noConfusion h

/-- C10 (confirmed): `parse_offer` writes the derived `eshop` field only
into the freshly allocated copy of its input; `parse_product` builds new
merged dicts without writing through any existing reference.  In the
store model, both leave every pre-existing dict object — in particular
the input product record and all its nested offer dicts — unchanged. -/
theorem parse_functions_do_not_mutate_inputs :
    (∀ (σ : Store) (r : Nat) (σ2 : Store) (rn : Nat),
       parse_offer_st σ r = Except.ok (σ2, rn) →
       ∀ i, i < σ.length → σ2.get? i = σ.get? i)
  ∧ (∀ (σ : Store) (r : Nat) (σ2 : Store) (res : List PyDict),
       parse_product_st σ r = Except.ok (σ2, res) →
       ∀ i, i < σ.length → σ2.get? i = σ.get? i) :=
  ⟨fun σ r σ2 rn h => (parse_offer_st_spec σ r σ2 rn h).2,
   parse_product_st_frame⟩

/-- Witness for `parse_functions_do_not_mutate_inputs` on the concrete
`frameStore`: the run allocates the offer copy at slot 3 and leaves slots
0–2 (the product, the offers container and the original offer) as they
were. -/
theorem parse_functions_do_not_mutate_inputs_witness :
    parse_product_st frameStore 0 = Except.ok
      (frameStore ++ [[("CustName", PyVal.str "http://WWW.Example.com/x"),
                       ("Price", PyVal.str "7"), ("eshop", PyVal.str "example.com")]],
       [[("product_CeneoProdID", PyVal.str "5"),
         ("cse_url", PyVal.str "https://ceneo.pl/5"),
         ("CustName", PyVal.str "http://WWW.Example.com/x"),
         ("Price", PyVal.str "7"), ("eshop", PyVal.str "example.com")]])
    ∧ (frameStore ++ [[("CustName", PyVal.str "http://WWW.Example.com/x"),
                       ("Price", PyVal.str "7"),
                       ("eshop", PyVal.str "example.com")]]).get? 2 = frameStore.get? 2 := by
  constructor
  · rfl
  · exact parse_functions_do_not_mutate_inputs.2 frameStore 0 _ _ rfl 2 (by decide)

/-! ## Claim C8 — sentinel protocol -/

theorem filter_isDone_chunks (cs : List (List PyDict)) :
    ((cs.map QItem.chunk ++ [QItem.DONE]).filter isDone).length = 1 := by
  induction cs with
  | nil => rfl
  | cons c cs ih => simpa [isDone] using ih

/-- C8 (amended): in every run in which each batch's fetch produces a
non-absent result (so the producer does not crash — see the
counterexample and C2), the producer enqueues one chunk per batch
followed by exactly one `DONE` sentinel, the sentinel last; and the
consumer, on any queue contents, terminates exactly by dequeuing a
sentinel: it stops immediately on `DONE`, keeps consuming on any row set
(even an empty one), and terminates iff a sentinel is present. -/
theorem sentinel_protocol :
    (∀ (scrape : List String → Except String (Option (List PyDict)))
       (cm : List (String × String)) (ts tss : String)
       (bs : List (Option Nat × List String)),
       (∀ b ∈ bs, ∃ br rows, scrape b.2 = Except.ok br ∧
          buildResults cm ts tss br = Except.ok rows) →
       ∃ cs : List (List PyDict),
         producerLoop scrape cm ts tss bs = (cs.map QItem.chunk ++ [QItem.DONE], true)
         ∧ cs.length = bs.length
         ∧ ((cs.map QItem.chunk ++ [QItem.DONE]).filter isDone).length = 1)
  ∧ (∀ qs : List QItem, writerTrace (QItem.DONE :: qs) = ([], true))
  ∧ (∀ (rs : List PyDict) (qs : List QItem),
       writerTrace (QItem.chunk rs :: qs) = (rs ++ (writerTrace qs).1, (writerTrace qs).2))
  ∧ writerTrace [] = ([], false)
  ∧ (∀ qs : List QItem, (writerTrace qs).2 = true ↔ ∃ q ∈ qs, isDone q = true) := by
  refine ⟨?_, fun qs => rfl, fun rs qs => rfl, rfl, ?_⟩
  · intro scrape cm ts tss bs hok
    induction bs with
    | nil => exact ⟨[], rfl, rfl, rfl⟩
    | cons b rest ih =>
        obtain ⟨br, rows, hs, hb⟩ := hok b (List.mem_cons_self _ _)
        obtain ⟨cs, hloop, hlen, hfil⟩ := ih (fun b2 hb2 => hok b2 (List.mem_cons_of_mem _ hb2))
        refine ⟨rows :: cs, ?_, by simp [hlen], filter_isDone_chunks _⟩
        obtain ⟨bi, ids⟩ := b
        simp only [producerLoop, hs, hb, hloop, List.map_cons, List.cons_append]
  · intro qs
    induction qs with
    | nil => simp [writerTrace]
    | cons q rest ih =>
        cases q with
        | DONE => simp [writerTrace, isDone]
        | chunk rs => simp [writerTrace, isDone, ih]

/-- Witness for `sentinel_protocol` on a concrete one-batch run. -/
theorem sentinel_protocol_witness :
    ∃ cs : List (List PyDict),
      producerLoop oneItemScrape [] "t" "s" [(some 0, ["1"])] =
        (cs.map QItem.chunk ++ [QItem.DONE], true)
      ∧ cs.length = [(some 0, ["1"])].length
      ∧ ((cs.map QItem.chunk ++ [QItem.DONE]).filter isDone).length = 1 :=
  sentinel_protocol.1 oneItemScrape [] "t" "s" [(some 0, ["1"])]
    (by
      intro b hb
      rcases List.mem_cons.mp hb with h | h
      · subst h
        exact ⟨some [[("product_CeneoProdID", PyVal.str "1"),
            ("CustName", PyVal.str "x"), ("Price", PyVal.str "9.99")]],
          [projectItem [] "t" "s" [("product_CeneoProdID", PyVal.str "1"),
            ("CustName", PyVal.str "x"), ("Price", PyVal.str "9.99")]], rfl, rfl⟩
      · exact absurd h (List.not_mem_nil b))

/-- C8 (counterexample): a run whose single batch reports an absent fetch
result enqueues nothing at all — in particular no sentinel (the claim
says "in every run ... exactly once") — and the writer fed that queue
never terminates. -/
theorem sentinel_missing_on_crashed_run :
    noneFetchRun.1 = []
    ∧ (noneFetchRun.1.filter isDone).length = 0
    ∧ (writerTrace noneFetchRun.1).2 = false := ⟨rfl, rfl, rfl⟩

/-! ## Claim C9 — run timestamps (amended part) -/

theorem producerLoop_chunk_mem (scrape : List String → Except String (Option (List PyDict)))
    (cm : List (String × String)) (ts tss : String)
    (bs : List (Option Nat × List String)) (rows : List PyDict)
    (h : QItem.chunk rows ∈ (producerLoop scrape cm ts tss bs).1) :
    ∃ br, buildResults cm ts tss br = Except.ok rows := by
  induction bs with
  | nil =>
      simp only [producerLoop] at h
      rcases List.mem_cons.mp h with h | h
      · exact absurd h (fun e => QItem.noConfusion e)
      · exact absurd h (List.not_mem_nil _)
  | cons b rest ih =>
      obtain ⟨bi, ids⟩ := b
      simp only [producerLoop] at h
      cases hs : scrape ids with
      | error e => simp only [hs] at h; exact absurd h (List.not_mem_nil _)
      | ok br0 =>
          simp only [hs] at h
          cases hb : buildResults cm ts tss br0 with
          | error e => simp only [hb] at h; exact absurd h (List.not_mem_nil _)
          | ok rows0 =>
              simp only [hb] at h
              rcases List.mem_cons.mp h with h | h
              · injection h with h2
                subst h2
                exact ⟨br0, hb⟩
              · exact ih h

theorem buildResults_row_shape (cm : List (String × String)) (ts tss : String)
    (br : Option (List PyDict)) (rows : List PyDict)
    (h : buildResults cm ts tss br = Except.ok rows) :
    ∀ row ∈ rows, ∃ item, row = projectItem cm ts tss item := by
  cases br with
  | none => exact Except.noConfusion h
  | some items =>
      simp only [buildResults] at h
      injection h with h
      subst h
      intro row hrow
      obtain ⟨item, _, hproj⟩ := List.mem_map.mp hrow
      exact ⟨item, hproj.symm⟩

theorem projectItem_const_fields (cm : List (String × String)) (ts tss : String)
    (item : PyDict) :
    dget (projectItem cm ts tss item) "TS" = some (PyVal.str ts)
    ∧ dget (projectItem cm ts tss item) "SOURCE_ID" =
        some (PyVal.str ("ceneo_PL_" ++ tss)) := by
  unfold projectItem
  rw [dget_dmerge, dget_dmerge]
  exact ⟨rfl, rfl⟩

/-- C9 (amended): the producer captures two instants at pipeline start,
one `utcnow()` call per format.  Every row of the run carries `TS` equal
to the display form of the first reading and `SOURCE_ID` embedding the
compact form of the second reading; both are therefore identical across
all rows of a run, but they stem from two distinct clock readings rather
than one once-captured timestamp. -/
theorem timestamp_fields_constant
    (scrape : List String → Except String (Option (List PyDict)))
    (clock : Nat → PyDateTime) (ids : List String) (B : Nat)
    (cm : List (String × String)) (rows : List PyDict) (row : PyDict)
    (hchunk : QItem.chunk rows ∈ (producerRun scrape clock ids B cm).1)
    (hrow : row ∈ rows) :
    dget row "TS" = some (PyVal.str (strftimeDisplay (clock 0)))
    ∧ dget row "SOURCE_ID" =
        some (PyVal.str ("ceneo_PL_" ++ strftimeCompact (clock 1))) := by
  obtain ⟨br, hbr⟩ := producerLoop_chunk_mem _ _ _ _ _ _ hchunk
  obtain ⟨item, hitem⟩ := buildResults_row_shape _ _ _ _ _ hbr row hrow
  rw [hitem]
  exact projectItem_const_fields _ _ _ _

/-- Witness for `timestamp_fields_constant` on a concrete run. -/
theorem timestamp_fields_constant_witness :
    dget [("TS", PyVal.str "2020-01-01 00:00:00"), ("COUNTRY", PyVal.str "PL"),
          ("DISTRCHAN", PyVal.str "MA"), ("SOURCE", PyVal.str "ceneo"),
          ("SOURCE_ID", PyVal.str "ceneo_PL_20200101000000"), ("FREQ", PyVal.str "d")]
        "TS" = some (PyVal.str (strftimeDisplay (scenClock 0)))
    ∧ dget [("TS", PyVal.str "2020-01-01 00:00:00"), ("COUNTRY", PyVal.str "PL"),
          ("DISTRCHAN", PyVal.str "MA"), ("SOURCE", PyVal.str "ceneo"),
          ("SOURCE_ID", PyVal.str "ceneo_PL_20200101000000"), ("FREQ", PyVal.str "d")]
        "SOURCE_ID" = some (PyVal.str ("ceneo_PL_" ++ strftimeCompact (scenClock 1))) := by
  refine timestamp_fields_constant oneItemScrape scenClock ["1"] 2 []
    [[("TS", PyVal.str "2020-01-01 00:00:00"), ("COUNTRY", PyVal.str "PL"),
      ("DISTRCHAN", PyVal.str "MA"), ("SOURCE", PyVal.str "ceneo"),
      ("SOURCE_ID", PyVal.str "ceneo_PL_20200101000000"), ("FREQ", PyVal.str "d")]]
    _ ?_ (List.mem_cons_self _ _)
  have e : (producerRun oneItemScrape scenClock ["1"] 2 []).1 =
      [QItem.chunk [[("TS", PyVal.str "2020-01-01 00:00:00"), ("COUNTRY", PyVal.str "PL"),
        ("DISTRCHAN", PyVal.str "MA"), ("SOURCE", PyVal.str "ceneo"),
        ("SOURCE_ID", PyVal.str "ceneo_PL_20200101000000"), ("FREQ", PyVal.str "d")]],
       QItem.DONE] := rfl
  rw [e]
  exact List.mem_cons_self _ _

/-! ## Claim C3 — batch partitioning -/

theorem gbyAux_fuel_irrel (B : Nat) :
    ∀ (f1 f2 : Nat) (l : List (Nat × α)), l.length ≤ f1 → l.length ≤ f2 →
      gbyAux B f1 l = gbyAux B f2 l := by
  intro f1
  induction f1 with
  | zero =>
      intro f2 l h1 h2
      have : l = [] := List.eq_nil_of_length_eq_zero (Nat.le_zero.mp h1)
      subst this
      cases f2 <;> rfl
  | succ f ih =>
      intro f2 l h1 h2
      cases l with
      | nil => cases f2 <;> rfl
      | cons p rest =>
          obtain ⟨i, a⟩ := p
          cases f2 with
          | zero => simp at h2
          | succ f2p =>
              simp only [gbyAux]
              congr 1
              have hd := (List.dropWhile_sublist
                (l := rest) (fun p => p.1 / B = i / B)).length_le
              simp only [List.length_cons] at h1 h2
              exact ih f2p _ (by omega) (by omega)

theorem gby_cons (B : Nat) (i : Nat) (a : α) (rest : List (Nat × α)) :
    gby B ((i, a) :: rest) =
      (i / B, a :: (rest.takeWhile (fun p => p.1 / B = i / B)).map Prod.snd)
        :: gby B (rest.dropWhile (fun p => p.1 / B = i / B)) := by
  unfold gby
  simp only [List.length_cons, gbyAux]
  congr 1
  have hd := (List.dropWhile_sublist (l := rest) (fun p => p.1 / B = i / B)).length_le
  exact gbyAux_fuel_irrel B rest.length _ _ hd (Nat.le_refl _)

theorem chunksOfAux_fuel_irrel (B : Nat) :
    ∀ (f1 f2 : Nat) (l : List α), l.length ≤ f1 → l.length ≤ f2 →
      chunksOfAux B f1 l = chunksOfAux B f2 l := by
  intro f1
  induction f1 with
  | zero =>
      intro f2 l h1 h2
      have : l = [] := List.eq_nil_of_length_eq_zero (Nat.le_zero.mp h1)
      subst this
      cases f2 <;> rfl
  | succ f ih =>
      intro f2 l h1 h2
      cases l with
      | nil => cases f2 <;> rfl
      | cons x xs =>
          cases f2 with
          | zero => simp at h2
          | succ f2p =>
              simp only [chunksOfAux]
              congr 1
              have hd := xs.length_drop (B - 1)
              simp only [List.length_cons] at h1 h2
              exact ih f2p _ (by omega) (by omega)

theorem chunksOf_cons (B : Nat) (x : α) (xs : List α) :
    chunksOf B (x :: xs) = (x :: xs.take (B - 1)) :: chunksOf B (xs.drop (B - 1)) := by
  unfold chunksOf
  simp only [List.length_cons, chunksOfAux]
  congr 1
  have hd := xs.length_drop (B - 1)
  exact chunksOfAux_fuel_irrel B xs.length _ _ (by omega) (Nat.le_refl _)

theorem enumFrom_map_snd (n : Nat) (l : List α) :
    (List.enumFrom n l).map Prod.snd = l := by
  induction l generalizing n with
  | nil => rfl
  | cons x xs ih => simp [List.enumFrom, ih]

theorem takeWhile_enumFrom (B c : Nat) (hB : 0 < B) :
    ∀ (xs : List α) (j : Nat), B * c ≤ j →
      (List.enumFrom j xs).takeWhile (fun p => p.1 / B = c) =
        List.enumFrom j (xs.take (B * (c + 1) - j)) := by
  intro xs
  induction xs with
  | nil => intro j hj; simp [List.enumFrom]
  | cons x xs ih =>
      intro j hj
      by_cases hlt : j < B * (c + 1)
      · have e1 : Nat.succ c * B = B * (c + 1) := by rw [Nat.succ_eq_add_one]; ring
        have e2 : c * B = B * c := by ring
        have hdiv : j / B = c :=
          Nat.div_eq_of_lt_le (by omega) (by rw [e1]; exact hlt)
        have h1 : B * (c + 1) - j = (B * (c + 1) - (j + 1)) + 1 := by omega
        rw [h1]
        simp only [List.enumFrom, List.take_succ_cons, List.takeWhile_cons]
        simp only [hdiv, decide_true_eq_true, if_true]
        exact congrArg (List.cons (j, x)) (ih (j + 1) (by omega))
      · have hdiv : ¬ j / B = c := by
          have e1 : (c + 1) * B = B * (c + 1) := by ring
          have h2 : c + 1 ≤ j / B := (Nat.le_div_iff_mul_le hB).mpr (by omega)
          omega
        have h0 : B * (c + 1) - j = 0 := by omega
        rw [h0]
        simp only [List.enumFrom, List.take_zero, List.takeWhile_cons]
        simp [hdiv]

theorem dropWhile_enumFrom (B c : Nat) (hB : 0 < B) :
    ∀ (xs : List α) (j : Nat), B * c ≤ j → j ≤ B * (c + 1) →
      (List.enumFrom j xs).dropWhile (fun p => p.1 / B = c) =
        List.enumFrom (B * (c + 1)) (xs.drop (B * (c + 1) - j)) := by
  intro xs
  induction xs with
  | nil => intro j hj hj2; simp [List.enumFrom]
  | cons x xs ih =>
      intro j hj hj2
      by_cases hlt : j < B * (c + 1)
      · have e1 : Nat.succ c * B = B * (c + 1) := by rw [Nat.succ_eq_add_one]; ring
        have e2 : c * B = B * c := by ring
        have hdiv : j / B = c :=
          Nat.div_eq_of_lt_le (by omega) (by rw [e1]; exact hlt)
        have h1 : B * (c + 1) - j = (B * (c + 1) - (j + 1)) + 1 := by omega
        rw [h1]
        simp only [List.enumFrom, List.drop_succ_cons, List.dropWhile_cons]
        simp only [hdiv, decide_true_eq_true, if_true]
        exact ih (j + 1) (by omega) (by omega)
      · have hj3 : j = B * (c + 1) := by omega
        subst hj3
        have hdiv : ¬ B * (c + 1) / B = c := by
          rw [Nat.mul_div_cancel_left _ hB]
          omega
        have h0 : B * (c + 1) - B * (c + 1) = 0 := by omega
        rw [h0]
        simp only [List.enumFrom, List.drop_zero, List.dropWhile_cons]
        simp [hdiv]

theorem gby_enumFrom_aux (B : Nat) (hB : 0 < B) :
    ∀ (n : Nat) (l : List α), l.length ≤ n → ∀ c,
      gby B (List.enumFrom (B * c) l) = List.enumFrom c (chunksOf B l) := by
  intro n
  induction n with
  | zero =>
      intro l h c
      have : l = [] := List.eq_nil_of_length_eq_zero (Nat.le_zero.mp h)
      subst this
      rfl
  | succ n ih =>
      intro l h c
      cases l with
      | nil => rfl
      | cons x xs =>
          have hstep : List.enumFrom (B * c) (x :: xs) =
              (B * c, x) :: List.enumFrom (B * c + 1) xs := rfl
          rw [hstep, gby_cons]
          simp only [Nat.mul_div_cancel_left _ hB]
          have e : B * (c + 1) - (B * c + 1) = B - 1 := by
            have e2 : B * (c + 1) = B * c + B := by ring
            omega
          rw [takeWhile_enumFrom B c hB xs (B * c + 1) (by omega), e, enumFrom_map_snd,
            dropWhile_enumFrom B c hB xs (B * c + 1) (by omega) (by
              have e2 : B * (c + 1) = B * c + B := by ring
              omega), e]
          have hlen : (xs.drop (B - 1)).length ≤ n := by
            have h2 := xs.length_drop (B - 1)
            simp only [List.length_cons] at h
            omega
          rw [ih (xs.drop (B - 1)) hlen (c + 1), chunksOf_cons]
          rfl

theorem gby_enum (B : Nat) (hB : 0 < B) (l : List α) :
    gby B (List.enumFrom 0 l) = List.enumFrom 0 (chunksOf B l) := by
  have h := gby_enumFrom_aux B hB l.length l (Nat.le_refl _) 0
  rw [Nat.mul_zero] at h
  exact h

theorem chunksOf_flatten (B : Nat) :
    ∀ (n : Nat) (l : List α), l.length ≤ n → (chunksOf B l).flatten = l := by
  intro n
  induction n with
  | zero =>
      intro l h
      have : l = [] := List.eq_nil_of_length_eq_zero (Nat.le_zero.mp h)
      subst this
      rfl
  | succ n ih =>
      intro l h
      cases l with
      | nil => rfl
      | cons x xs =>
          rw [chunksOf_cons]
          have hlen : (xs.drop (B - 1)).length ≤ n := by
            have h2 := xs.length_drop (B - 1)
            simp only [List.length_cons] at h
            omega
          simp only [List.flatten_cons, ih (xs.drop (B - 1)) hlen, List.cons_append,
            List.take_append_drop]

theorem chunksOf_length (B : Nat) (hB : 0 < B) :
    ∀ (n : Nat) (l : List α), l.length ≤ n →
      (chunksOf B l).length = (l.length + B - 1) / B := by
  intro n
  induction n with
  | zero =>
      intro l h
      have : l = [] := List.eq_nil_of_length_eq_zero (Nat.le_zero.mp h)
      subst this
      simp [chunksOf, chunksOfAux, Nat.div_eq_of_lt (by omega : B - 1 < B)]
  | succ n ih =>
      intro l h
      cases l with
      | nil => simp [chunksOf, chunksOfAux, Nat.div_eq_of_lt (by omega : B - 1 < B)]
      | cons x xs =>
          rw [chunksOf_cons]
          have hlen : (xs.drop (B - 1)).length ≤ n := by
            have h2 := xs.length_drop (B - 1)
            simp only [List.length_cons] at h
            omega
          simp only [List.length_cons]
          rw [ih (xs.drop (B - 1)) hlen, xs.length_drop (B - 1)]
          by_cases hm : B - 1 ≤ xs.length
          · have e1 : xs.length - (B - 1) + B - 1 = xs.length := by omega
            have e2 : xs.length + 1 + B - 1 = xs.length + B := by omega
            rw [e1, e2, Nat.add_div_right _ hB]
          · have e1 : xs.length - (B - 1) + B - 1 = B - 1 := by omega
            have e2 : xs.length + 1 + B - 1 = xs.length + B := by omega
            rw [e1, e2, Nat.div_eq_of_lt (by omega : B - 1 < B)]
            exact (Nat.div_eq_of_lt_le (by omega) (by omega)).symm

theorem get?_take_of_lt : ∀ (l : List α) (n m : Nat), m < n → (l.take n).get? m = l.get? m := by
  intro l
  induction l with
  | nil => intro n m _; simp
  | cons x xs ih =>
      intro n m hm
      cases n with
      | zero => omega
      | succ n2 =>
          cases m with
          | zero => rfl
          | succ m2 => exact ih n2 m2 (by omega)

theorem get?_drop_add : ∀ (l : List α) (n m : Nat), (l.drop n).get? m = l.get? (n + m) := by
  intro l
  induction l with
  | nil => intro n m; simp
  | cons x xs ih =>
      intro n m
      cases n with
      | zero => simp
      | succ n2 =>
          have e : n2 + 1 + m = (n2 + m) + 1 := by omega
          rw [e]
          exact ih n2 m

theorem chunksOf_get? (B : Nat) (hB : 0 < B) :
    ∀ (n : Nat) (l : List α) (p : Nat), l.length ≤ n → p < l.length →
      ∃ chunk, (chunksOf B l).get? (p / B) = some chunk
        ∧ chunk.get? (p % B) = l.get? p := by
  intro n
  induction n with
  | zero => intro l p h hp; omega
  | succ n ih =>
      intro l p h hp
      cases l with
      | nil => simp at hp
      | cons x xs =>
          rw [chunksOf_cons]
          by_cases hpB : p < B
          · refine ⟨x :: xs.take (B - 1), ?_, ?_⟩
            · rw [Nat.div_eq_of_lt hpB]
              rfl
            · rw [Nat.mod_eq_of_lt hpB]
              have he : (x :: xs.take (B - 1)) = (x :: xs).take B := by
                cases B with
                | zero => omega
                | succ b => rfl
              rw [he]
              exact get?_take_of_lt (x :: xs) B p hpB
          · have hBp : B ≤ p := by omega
            have hdrop : xs.drop (B - 1) = (x :: xs).drop B := by
              cases B with
              | zero => omega
              | succ b => rfl
            have hplen : p - B < (xs.drop (B - 1)).length := by
              rw [xs.length_drop (B - 1)]
              simp only [List.length_cons] at hp
              omega
            obtain ⟨chunk, h1, h2⟩ := ih (xs.drop (B - 1)) (p - B) (by
              have h2 := xs.length_drop (B - 1)
              simp only [List.length_cons] at h
              omega) hplen
            refine ⟨chunk, ?_, ?_⟩
            · rw [Nat.div_eq_sub_div hB hBp]
              simpa using h1
            · rw [Nat.mod_eq_sub_mod hBp]
              rw [h2, get?_drop_add]
              have e : B - 1 + (p - B) = p - 1 := by omega
              rw [e]
              cases p with
              | zero => omega
              | succ p2 =>
                  have e2 : p2 + 1 - 1 = p2 := by omega
                  rw [e2]
                  rfl

theorem batches_eq (B : Nat) (hB : 0 < B) (x : α) (xs : List α) :
    batches (x :: xs) B = (List.enumFrom 0 (chunksOf B (x :: xs))).map
      (fun p => ((some p.1 : Option Nat), p.2)) := by
  unfold batches
  rw [gby_enum B hB, chunksOf_cons]
  rfl

/-- C3 (amended): for every identifier list and every `B > 0`, `batches`
yields finitely many pairs whose identifier lists concatenate back to the
input (hence their union is the input set), which are pairwise disjoint
when the input has no duplicates, and in which the identifier at position
`p` of the iteration order sits in the batch indexed `p / B` at offset
`p % B`.  The number of yielded batches is `ceil(|S| / B)` for a
non-empty input but `1` — not `0` — for the empty input, which yields the
single degenerate batch `(None, [])`. -/
theorem batches_partition (l : List String) (B : Nat) (hB : 0 < B) (hnd : l.Nodup) :
    ((batches l B).map Prod.snd).flatten = l
    ∧ ((batches l B).map Prod.snd).Pairwise List.Disjoint
    ∧ (batches l B).length = (if l.isEmpty then 1 else (l.length + B - 1) / B)
    ∧ (∀ p, p < l.length → ∃ ids, (batches l B).get? (p / B) = some (some (p / B), ids)
        ∧ ids.get? (p % B) = l.get? p)
    ∧ batches ([] : List String) B = [(Option.none, [])] := by
  have hempty : batches ([] : List String) B = [(Option.none, [])] := rfl
  cases l with
  | nil =>
      refine ⟨rfl, List.pairwise_singleton _ _, by simp [hempty], ?_, hempty⟩
      intro p hp
      simp at hp
  | cons x xs =>
      have hb := batches_eq B hB x xs
      have hsnd : (Prod.snd ∘ fun p : Nat × List String =>
          ((some p.1 : Option Nat), p.2)) = Prod.snd := rfl
      refine ⟨?_, ?_, ?_, ?_, hempty⟩
      · rw [hb, List.map_map, hsnd, enumFrom_map_snd]
        exact chunksOf_flatten B _ (x :: xs) (Nat.le_refl _)
      · rw [hb, List.map_map, hsnd, enumFrom_map_snd]
        have hnj := List.nodup_flatten.mp
          (by rw [chunksOf_flatten B _ (x :: xs) (Nat.le_refl _)]; exact hnd)
        exact hnj.2
      · rw [hb, List.length_map, List.enumFrom_length,
          chunksOf_length B hB _ (x :: xs) (Nat.le_refl _)]
        simp
      · intro p hp
        obtain ⟨chunk, h1, h2⟩ := chunksOf_get? B hB _ (x :: xs) p (Nat.le_refl _) hp
        refine ⟨chunk, ?_, h2⟩
        rw [hb, List.get?_map, List.get?_enumFrom, h1]
        simp

/-- Witness for `batches_partition` on a concrete three-element input
with batch size 2. -/
theorem batches_partition_witness :
    ((batches ["1", "2", "3"] 2).map Prod.snd).flatten = ["1", "2", "3"]
    ∧ (batches ["1", "2", "3"] 2).length =
        (if (["1", "2", "3"] : List String).isEmpty then 1 else (3 + 2 - 1) / 2) := by
  have h := batches_partition ["1", "2", "3"] 2 (by decide) (by decide)
  exact ⟨h.1, h.2.2.1⟩

/-- C3 (counterexample): the empty identifier set yields one degenerate
batch, so the number of yielded batches is 1 but the claim's count
formula `ceil(|S| / B)` gives 0. -/
theorem batches_empty_set_count :
    (batches ([] : List String) 2).length = 1
    ∧ ((([] : List String)).length + 2 - 1) / 2 = 0 := ⟨rfl, rfl⟩
